import Mathlib

/-!
Verification of the contact-form validation and submission logic of the
chrispivonka.com repository.

Strings are modelled as `List Char`.  Nullable / possibly-undefined string
arguments are modelled as `Option (List Char)` (`none` = null/undefined).

The validation helpers (`src/js/validation-helpers.js`) try to import the
npm packages `validator` and `dompurify` and fall back to the regex-based
implementations written in that file when the imports fail.  The external
npm packages are not part of the repository, so this development embeds the
in-repository fallback implementations:
  * `DOMPurify.sanitize` fallback (lines 26-38): with a live `document`
    it is `div.textContent := input; return div.textContent` (the
    `ALLOWED_TAGS: []` branch), i.e. the identity on the input; without a
    document it is `input.replace(/<[^>]*>/g, "")`.
  * `validator.isEmail` fallback: `/^[^\s@]+@[^\s@]+\.[^\s@]+$/`.
  * `validator.isMobilePhone` fallback: `/^[+]?[\d\s\-().]{7,20}$/`.
  * `validator.isLength` fallback: `str.length >= min && str.length <= max`.
The hand-rolled sanitizer and validators of the csrf controller variant in
`src/unnamed/part_002` (second document) are embedded with a `Cv` suffix.
-/

/-- The JavaScript whitespace class (matched by `\s` in a regex and removed
by `String.prototype.trim`): tab, LF, VT, FF, CR, space, NBSP, the Unicode
space separators, LS, PS, NNBSP, MMSP, ideographic space and the BOM. -/
def isJsSpace (c : Char) : Bool :=
  c = ' ' || c = '\t' || c = '\n' || c = '\r' ||
  c = Char.ofNat 0x0b || c = Char.ofNat 0x0c ||
  c = Char.ofNat 0xa0 || c = Char.ofNat 0x1680 ||
  (0x2000 ≤ c.toNat && c.toNat ≤ 0x200a) ||
  c = Char.ofNat 0x2028 || c = Char.ofNat 0x2029 ||
  c = Char.ofNat 0x202f || c = Char.ofNat 0x205f ||
  c = Char.ofNat 0x3000 || c = Char.ofNat 0xfeff

/-- The apostrophe character `U+0027`. -/
def apostrophe : Char := Char.ofNat 39

/-- Left part of `String.prototype.trim`: drop leading whitespace. -/
def trimLeft (l : List Char) : List Char := l.dropWhile isJsSpace

/-- Right part of `String.prototype.trim`: drop trailing whitespace. -/
def trimRight (l : List Char) : List Char := (l.reverse.dropWhile isJsSpace).reverse

/-- `String.prototype.trim`: drop leading and trailing whitespace. -/
def jsTrim (l : List Char) : List Char := trimLeft (trimRight l)

/-- Helper for `stripTags`: drop characters up to and including the first
`>`; `none` when no `>` occurs (the regex `<[^>]*>` cannot match). -/
def dropThroughGt : List Char → Option (List Char)
  | [] => none
  | c :: rest => if c = '>' then some rest else dropThroughGt rest

theorem dropThroughGt_length : ∀ {l r : List Char}, dropThroughGt l = some r → r.length < l.length := by
  intro l
  induction l with
  | nil => intro r h; simp [dropThroughGt] at h
  | cons c rest ih =>
    intro r h
    by_cases hc : c = '>'
    · simp [dropThroughGt, hc] at h
      simp [← h, List.length_cons, Nat.lt_succ_self]
    · simp [dropThroughGt, hc] at h
      exact Nat.lt_trans (ih h) (Nat.lt_succ_self _)

/-- `input.replace(/<[^>]*>/g, "")`: scanning left to right, each `<` that
has a later `>` is removed together with everything up to and including the
first such `>`; a `<` with no later `>` cannot match, and then nothing after
it can match either, so the remainder is kept verbatim. -/
def stripTags (l : List Char) : List Char :=
  match l with
  | [] => []
  | c :: rest =>
    if c = '<' then
      match h : dropThroughGt rest with
      | some rest2 => stripTags rest2
      | none => c :: rest
    else
      c :: stripTags rest
termination_by l.length
decreasing_by
  · exact Nat.lt_trans (dropThroughGt_length h) (Nat.lt_succ_self _)
  · simp [List.length_cons, Nat.lt_succ_self]

/-- `true` when the list contains a `>`. -/
def hasGt : List Char → Bool
  | [] => false
  | c :: rest => c = '>' || hasGt rest

/-- `true` when the list contains a `<` that is followed (anywhere later)
by a `>`, i.e. when the regex `<[^>]*>` has a match. -/
def hasTag : List Char → Bool
  | [] => false
  | c :: rest => (c = '<' && hasGt rest) || hasTag rest

/-- `sanitizeInput` of `validation-helpers.js`, parameterised by whether a
live `document` is present, embedding the DOMPurify browser fallback:
returns `""` on null/undefined/empty input; with a document the fallback
returns the input unchanged (`div.textContent` round-trip), without one it
strips `/<[^>]*>/g`; the result is then trimmed. -/
def sanitizeInputEnv (docPresent : Bool) (m : Option (List Char)) : List Char :=
  match m with
  | none => []
  | some l => if l = [] then [] else jsTrim (if docPresent then l else stripTags l)

/-- `sanitizeInput` in the document-free fallback environment (the only
branch that is a pure function of the string in the source). -/
def sanitizeInput (m : Option (List Char)) : List Char := sanitizeInputEnv false m

/-- Character class `[a-zA-Z\s\-']` of the name regex. -/
def nameChar (c : Char) : Bool :=
  c.isAlpha || isJsSpace c || c = '-' || c = apostrophe

/-- `isValidName` of `validation-helpers.js`, parameterised by document
presence: `!name` guard, sanitize + trim, length in `[2, 100]`, and the
regex `/^[a-zA-Z\s\-']+$/`. -/
def isValidNameEnv (doc : Bool) (m : Option (List Char)) : Bool :=
  match m with
  | none => false
  | some l =>
    if l = [] then false
    else
      let cleaned := jsTrim (sanitizeInputEnv doc (some l))
      if cleaned.length < 2 || cleaned.length > 100 then false
      else !cleaned.isEmpty && cleaned.all nameChar

/-- `isValidName` in the document-free fallback environment. -/
def isValidName (m : Option (List Char)) : Bool := isValidNameEnv false m

/-- Split at the first occurrence of `a`: `some (before, after)` or `none`
when `a` does not occur. -/
def splitFirst (a : Char) : List Char → Option (List Char × List Char)
  | [] => none
  | c :: rest =>
    if c = a then some ([], rest)
    else (splitFirst a rest).map (fun p => (c :: p.1, p.2))

/-- A `.` that is not the last character of the list. -/
def dotNotLast : List Char → Bool
  | [] => false
  | [_] => false
  | c :: rest => c = '.' || dotNotLast rest

/-- The domain part of the email fallback regex `[^\s@]+\.[^\s@]+` needs a
dot preceded by at least one character and followed by at least one. -/
def hasInnerDot (l : List Char) : Bool :=
  match l with
  | [] => false
  | _ :: rest => dotNotLast rest

/-- Character class `[^\s@]`. -/
def emailChar (c : Char) : Bool := !isJsSpace c && c ≠ '@'

/-- The `validator.isEmail` fallback regex `/^[^\s@]+@[^\s@]+\.[^\s@]+$/`:
exactly one `@` (the classes exclude `@`), nonempty local part without
whitespace, and a domain without whitespace containing an inner dot. -/
def fallbackIsEmail (l : List Char) : Bool :=
  match splitFirst '@' l with
  | none => false
  | some (loc, dom) =>
    !loc.isEmpty && loc.all emailChar && dom.all emailChar && hasInnerDot dom

/-- `isValidEmail` of `validation-helpers.js`, parameterised by document
presence: `!email` guard, sanitize + trim, fallback email regex. -/
def isValidEmailEnv (doc : Bool) (m : Option (List Char)) : Bool :=
  match m with
  | none => false
  | some l =>
    if l = [] then false
    else fallbackIsEmail (jsTrim (sanitizeInputEnv doc (some l)))

/-- `isValidEmail` in the document-free fallback environment. -/
def isValidEmail (m : Option (List Char)) : Bool := isValidEmailEnv false m

/-- Character class `[\d\s\-().]` of the phone fallback regex. -/
def phoneChar (c : Char) : Bool :=
  c.isDigit || isJsSpace c || c = '-' || c = '(' || c = ')' || c = '.'

/-- The `validator.isMobilePhone` fallback regex `/^[+]?[\d\s\-().]{7,20}$/`. -/
def fallbackIsMobilePhone (l : List Char) : Bool :=
  match l with
  | '+' :: rest => rest.all phoneChar && 7 ≤ rest.length && rest.length ≤ 20
  | _ => l.all phoneChar && 7 ≤ l.length && l.length ≤ 20

/-- `isValidPhone` of `validation-helpers.js`, parameterised by document
presence: empty or whitespace-only input is valid (optional field),
otherwise sanitize + trim and the fallback phone regex. -/
def isValidPhoneEnv (doc : Bool) (m : Option (List Char)) : Bool :=
  match m with
  | none => true
  | some l =>
    if l = [] then true
    else if jsTrim l = [] then true
    else fallbackIsMobilePhone (jsTrim (sanitizeInputEnv doc (some l)))

/-- `isValidPhone` in the document-free fallback environment. -/
def isValidPhone (m : Option (List Char)) : Bool := isValidPhoneEnv false m

/-- The `validator.isLength` fallback with options `{min, max}`. -/
def fallbackIsLength (l : List Char) (mn mx : Nat) : Bool :=
  mn ≤ l.length && l.length ≤ mx

/-- `isValidMessage` of `validation-helpers.js`, parameterised by document
presence: `!message` guard, sanitize + trim, length in `[5, 5000]`. -/
def isValidMessageEnv (doc : Bool) (m : Option (List Char)) : Bool :=
  match m with
  | none => false
  | some l =>
    if l = [] then false
    else fallbackIsLength (jsTrim (sanitizeInputEnv doc (some l))) 5 5000

/-- `isValidMessage` in the document-free fallback environment. -/
def isValidMessage (m : Option (List Char)) : Bool := isValidMessageEnv false m

/-- Case-insensitive match of the (lowercase, nonempty) pattern `p :: ps`
against a prefix of the list; returns the remainder after the match. -/
def ciMatchPat : List Char → List Char → Option (List Char)
  | [], rest => some rest
  | _, [] => none
  | p :: ps, c :: cs => if c.toLower = p then ciMatchPat ps cs else none

theorem ciMatchPat_length : ∀ {ps l r : List Char}, ciMatchPat ps l = some r → r.length ≤ l.length := by
  intro ps
  induction ps with
  | nil => intro l r h; simp [ciMatchPat] at h; simp [h]
  | cons p ps ih =>
    intro l r h
    cases l with
    | nil => simp [ciMatchPat] at h
    | cons c cs =>
      by_cases hc : c.toLower = p
      · simp [ciMatchPat, hc] at h
        exact Nat.le_trans (ih h) (Nat.le_succ _)
      · simp [ciMatchPat, hc] at h

/-- `s.replace(/PAT/gi, "")` for a fixed nonempty lowercase literal pattern
`p :: ps`: left-to-right scan removing non-overlapping case-insensitive
occurrences. -/
def removeAllCi (p : Char) (ps : List Char) (l : List Char) : List Char :=
  match l with
  | [] => []
  | c :: rest =>
    if c.toLower = p then
      match h : ciMatchPat ps rest with
      | some rest2 => removeAllCi p ps rest2
      | none => c :: removeAllCi p ps rest
    else
      c :: removeAllCi p ps rest
termination_by l.length
decreasing_by
  · exact Nat.lt_succ_of_le (ciMatchPat_length h)
  · simp [List.length_cons, Nat.lt_succ_self]
  · simp [List.length_cons, Nat.lt_succ_self]

/-- Word character class `\w` = `[A-Za-z0-9_]`. -/
def isWordChar (c : Char) : Bool := c.isAlpha || c.isDigit || c = '_'

/-- Tail of a match of `/on\w+\s*=/` after the literal `on`: the greedy
`\w+` must take the whole word-character run and `\s*` the whole following
whitespace run (any backtracked stop leaves a word or whitespace character
where `=` is required), then a literal `=`. Returns the rest after the
match. -/
def matchOnRest (l : List Char) : Option (List Char) :=
  let w := l.takeWhile isWordChar
  let r1 := l.dropWhile isWordChar
  if w.isEmpty then none
  else
    match r1.dropWhile isJsSpace with
    | '=' :: rest => some rest
    | _ => none

theorem length_dropWhile_le' (p : Char → Bool) : ∀ l : List Char, (l.dropWhile p).length ≤ l.length := by
  intro l
  induction l with
  | nil => simp [List.dropWhile]
  | cons c rest ih =>
    by_cases hc : p c
    · simp [List.dropWhile, hc]
      exact Nat.le_trans ih (Nat.le_succ _)
    · simp [List.dropWhile, hc]

theorem matchOnRest_length : ∀ {l r : List Char}, matchOnRest l = some r → r.length < l.length := by
  intro l r h
  unfold matchOnRest at h
  by_cases hw : (l.takeWhile isWordChar).isEmpty
  · simp [hw] at h
  · simp [hw] at h
    cases h2 : (l.dropWhile isWordChar).dropWhile isJsSpace with
    | nil => rw [h2] at h; simp at h
    | cons d rest =>
      rw [h2] at h
      by_cases hd : d = '='
      · subst hd
        simp at h
        subst h
        have h3 : ((l.dropWhile isWordChar).dropWhile isJsSpace).length = rest.length + 1 := by
          rw [h2]; simp
        have h4 := length_dropWhile_le' isJsSpace (l.dropWhile isWordChar)
        have h5 := length_dropWhile_le' isWordChar l
        omega
      · simp [hd] at h

/-- `s.replace(/on\w+\s*=/gi, "")`: left-to-right scan; at each position a
case-insensitive `on` followed by `matchOnRest` is removed, otherwise the
character is kept and scanning advances one position. -/
def removeOnHandlers (l : List Char) : List Char :=
  match l with
  | [] => []
  | [c] => [c]
  | c :: d :: rest2 =>
    if c.toLower = 'o' ∧ d.toLower = 'n' then
      match h : matchOnRest rest2 with
      | some rest3 => removeOnHandlers rest3
      | none => c :: removeOnHandlers (d :: rest2)
    else
      c :: removeOnHandlers (d :: rest2)
termination_by l.length
decreasing_by
  · have := matchOnRest_length h
    simp [List.length_cons]
    omega
  · simp [List.length_cons, Nat.lt_succ_self]
  · simp [List.length_cons, Nat.lt_succ_self]

/-- `s.replace(/t/g, rep)` for a single character `t`: replace every
occurrence of `t` by the list `rep`. -/
def replaceChar (t : Char) (rep : List Char) : List Char → List Char
  | [] => []
  | c :: rest => (if c = t then rep else [c]) ++ replaceChar t rep rest

/-- The hand-rolled `sanitizeInput` of the csrf controller variant
(`src/unnamed/part_002`, second document, lines 269-289): `!input` guard,
strip `/<[^>]*>/g`, remove `/javascript:/gi` and `/on\w+\s*=/gi`, encode
`&`, `<`, `>`, `"`, `'` as HTML entities, then trim. -/
def sanitizeInputCv (m : Option (List Char)) : List Char :=
  match m with
  | none => []
  | some l =>
    if l = [] then []
    else
      let s1 := stripTags l
      let s2 := removeAllCi 'j' ("avascript:".toList) s1
      let s3 := removeOnHandlers s2
      let s4 := replaceChar '&' ("&amp;".toList) s3
      let s5 := replaceChar '<' ("&lt;".toList) s4
      let s6 := replaceChar '>' ("&gt;".toList) s5
      let s7 := replaceChar '"' ("&quot;".toList) s6
      let s8 := replaceChar apostrophe ("&#x27;".toList) s7
      jsTrim s8

/-- Hand-rolled `isValidName` of the csrf controller variant (lines
292-304): sanitize + trim, `!cleaned` or length outside `[2, 100]` rejects,
then the regex `/^[a-zA-Z\s\-']+$/`. -/
def isValidNameCv (m : Option (List Char)) : Bool :=
  let cleaned := jsTrim (sanitizeInputCv m)
  if cleaned.isEmpty || cleaned.length < 2 then false
  else if cleaned.length > 100 then false
  else !cleaned.isEmpty && cleaned.all nameChar

/-- Hand-rolled `isValidEmail` of the csrf controller variant (lines
307-324): sanitize + trim + lowercase, the same fallback email regex, then
total length at most 254 and local part (`split("@")[0]`) at most 64. -/
def isValidEmailCv (m : Option (List Char)) : Bool :=
  let cleaned := (jsTrim (sanitizeInputCv m)).map Char.toLower
  if !fallbackIsEmail cleaned then false
  else if cleaned.length > 254 then false
  else if (cleaned.takeWhile (fun c => c ≠ '@')).length > 64 then false
  else true

/-- Character class `[\d\s\-()+]` of the csrf variant phone regex. -/
def phoneCharCv (c : Char) : Bool :=
  c.isDigit || isJsSpace c || c = '-' || c = '(' || c = ')' || c = '+'

/-- Hand-rolled `isValidPhone` of the csrf controller variant (lines
327-347): empty or whitespace-only is valid, otherwise the regex
`/^[\d\s\-()+]+$/` and 7 to 15 digits after removing non-digits. -/
def isValidPhoneCv (m : Option (List Char)) : Bool :=
  match m with
  | none => true
  | some l =>
    if l = [] then true
    else if jsTrim l = [] then true
    else
      let cleaned := jsTrim (sanitizeInputCv (some l))
      if !(!cleaned.isEmpty && cleaned.all phoneCharCv) then false
      else
        let digitsOnly := cleaned.filter Char.isDigit
        if digitsOnly.length < 7 || digitsOnly.length > 15 then false
        else true

/-- Hand-rolled `isValidMessage` of the csrf controller variant (lines
350-360): sanitize + trim, `!cleaned` or length below 5 rejects, length
above 5000 rejects. -/
def isValidMessageCv (m : Option (List Char)) : Bool :=
  let cleaned := jsTrim (sanitizeInputCv m)
  if cleaned.isEmpty || cleaned.length < 5 then false
  else if cleaned.length > 5000 then false
  else true

/-- The fixed API Gateway endpoint URL. -/
def API_ENDPOINT : List Char :=
  "https://674lumu19j.execute-api.us-west-2.amazonaws.com/prod/contact".toList

/-- The DOM state read by `validateContactForm` of the primary controller:
the four field values and the honeypot element (`none` when the `website`
element is absent from the page). -/
structure ContactFormState where
  name : List Char
  email : List Char
  phone : List Char
  message : List Char
  website : Option (List Char)

/-- The JSON payload `{name, email, phone, message}` built by the primary
controller. -/
structure FormData where
  name : List Char
  email : List Char
  phone : List Char
  message : List Char
deriving DecidableEq

/-- Observable outcome of one `validateContactForm` run of the primary
controller: show the error modal with the given messages, silently drop the
submission (honeypot), or call `submitForm` with a payload. -/
inductive FormAction where
  | showErrors (errs : List (List Char))
  | silentDrop
  | submit (fd : FormData)
deriving DecidableEq

def nameRequiredMsg : List Char := "Name is required".toList

def nameFormatMsg : List Char :=
  ("Name must be at least 2 characters and contain only letters, " ++
   "spaces, hyphens, and apostrophes").toList

def emailRequiredMsg : List Char := "Email is required".toList

def emailFormatMsg : List Char := "Please enter a valid email address".toList

def phoneFormatMsg : List Char := "Phone number format is invalid".toList

def messageRequiredMsg : List Char := "Message is required".toList

def messageFormatMsg : List Char :=
  "Message must be between 5 and 5000 characters".toList

/-- The `errors` list accumulated by `validateContactForm` (primary
controller, lines 44-76 of the first document of `src/unnamed/part_002`)
over the sanitized field values. -/
def contactFormErrors (st : ContactFormState) : List (List Char) :=
  let name := sanitizeInput (some st.name)
  let email := sanitizeInput (some st.email)
  let phone := sanitizeInput (some st.phone)
  let message := sanitizeInput (some st.message)
  (if name = [] then [nameRequiredMsg]
   else if isValidName (some name) then [] else [nameFormatMsg]) ++
  (if email = [] then [emailRequiredMsg]
   else if isValidEmail (some email) then [] else [emailFormatMsg]) ++
  (if phone = [] then []
   else if isValidPhone (some phone) then [] else [phoneFormatMsg]) ++
  (if message = [] then [messageRequiredMsg]
   else if isValidMessage (some message) then [] else [messageFormatMsg])

/-- `validateContactForm` of the primary controller: sanitize the four
fields, collect errors; a nonempty error list shows the error modal; then
the honeypot check (an existing `website` element with a truthy value
silently drops the submission); otherwise `submitForm` is called with
`{name, email, phone: phone || "", message}`. -/
def validateContactForm (st : ContactFormState) : FormAction :=
  let name := sanitizeInput (some st.name)
  let email := sanitizeInput (some st.email)
  let phone := sanitizeInput (some st.phone)
  let message := sanitizeInput (some st.message)
  let errors := contactFormErrors st
  if errors ≠ [] then .showErrors errors
  else
    match st.website with
    | some w =>
      if w ≠ [] then .silentDrop
      else .submit ⟨name, email, if phone = [] then [] else phone, message⟩
    | none => .submit ⟨name, email, if phone = [] then [] else phone, message⟩

/-- JSON body of the primary controller's request, as the ordered key/value
pairs produced by `JSON.stringify({name, email, phone, message})`. -/
def bodyPairs (fd : FormData) : List (List Char × List Char) :=
  [("name".toList, fd.name), ("email".toList, fd.email),
   ("phone".toList, fd.phone), ("message".toList, fd.message)]

/-- An outbound HTTP request: method, URL, `Content-Type` header value and
JSON body (ordered key/value pairs). -/
structure HttpRequest where
  method : List Char
  url : List Char
  contentType : List Char
  body : List (List Char × List Char)

/-- The single `fetch` call issued by `submitForm` of the primary
controller for a given payload. -/
def submitRequest (fd : FormData) : HttpRequest :=
  ⟨"POST".toList, API_ENDPOINT, "application/json".toList, bodyPairs fd⟩

/-- The DOM state read by the csrf controller variant: four field values
plus the module-level `CSRF_TOKEN`. -/
structure CsrfFormState where
  name : List Char
  email : List Char
  phone : List Char
  message : List Char
  csrfToken : List Char

/-- The JSON payload `{name, email, phone, message, csrf_token}` built by
the csrf controller variant (lines 423-429 of the second document). -/
structure CsrfFormData where
  name : List Char
  email : List Char
  phone : List Char
  message : List Char
  csrfToken : List Char
deriving DecidableEq

/-- Observable outcome of one `validateContactForm` run of the csrf
controller variant (it has no honeypot check). -/
inductive CsrfFormAction where
  | showErrors (errs : List (List Char))
  | submit (fd : CsrfFormData)
deriving DecidableEq

/-- The `errors` list of the csrf controller variant, which uses the
hand-rolled sanitizer and validators. -/
def contactFormErrorsCsrf (st : CsrfFormState) : List (List Char) :=
  let name := sanitizeInputCv (some st.name)
  let email := sanitizeInputCv (some st.email)
  let phone := sanitizeInputCv (some st.phone)
  let message := sanitizeInputCv (some st.message)
  (if name = [] then [nameRequiredMsg]
   else if isValidNameCv (some name) then [] else [nameFormatMsg]) ++
  (if email = [] then [emailRequiredMsg]
   else if isValidEmailCv (some email) then [] else [emailFormatMsg]) ++
  (if phone = [] then []
   else if isValidPhoneCv (some phone) then [] else [phoneFormatMsg]) ++
  (if message = [] then [messageRequiredMsg]
   else if isValidMessageCv (some message) then [] else [messageFormatMsg])

/-- `validateContactForm` of the csrf controller variant: same structure as
the primary controller but with the hand-rolled helpers, no honeypot check,
and a payload that additionally carries `csrf_token: CSRF_TOKEN`. -/
def validateContactFormCsrf (st : CsrfFormState) : CsrfFormAction :=
  let name := sanitizeInputCv (some st.name)
  let email := sanitizeInputCv (some st.email)
  let phone := sanitizeInputCv (some st.phone)
  let message := sanitizeInputCv (some st.message)
  let errors := contactFormErrorsCsrf st
  if errors ≠ [] then .showErrors errors
  else .submit ⟨name, email, if phone = [] then [] else phone, message, st.csrfToken⟩

/-- JSON body of the csrf variant's request: the four fields plus
`csrf_token`. -/
def bodyPairsCsrf (fd : CsrfFormData) : List (List Char × List Char) :=
  [("name".toList, fd.name), ("email".toList, fd.email),
   ("phone".toList, fd.phone), ("message".toList, fd.message),
   ("csrf_token".toList, fd.csrfToken)]

/-- The `fetch` call issued by the csrf variant's `submitForm`. -/
def submitRequestCsrf (fd : CsrfFormData) : HttpRequest :=
  ⟨"POST".toList, API_ENDPOINT, "application/json".toList, bodyPairsCsrf fd⟩

/-- The key list of the primary controller's JSON body as the spec states
it: exactly `name`, `email`, `phone`, `message`. -/
def formDataKeys : List (List Char) :=
  ["name".toList, "email".toList, "phone".toList, "message".toList]

/-- Outcome of the awaited `fetch` + `response.json()` in `submitForm`:
`ok msg` is a 2xx response with parsed JSON body, `notOk msg` a non-2xx
response whose parsed body has `message` field `msg` (`[]` models a
missing, empty or otherwise falsy `message`), `fail` a rejected fetch or a
body that fails to parse as JSON (the `catch` branch). -/
inductive FetchOutcome where
  | ok (msg : List Char)
  | notOk (msg : List Char)
  | fail
deriving DecidableEq

/-- Which modal `submitForm` shows. -/
inductive ModalKind where
  | success
  | error (msgs : List (List Char))
deriving DecidableEq

/-- Final UI state after `submitForm` returns: submit-button disabled flag
and label, the modal shown, and whether the form was reset. -/
structure SubmitResult where
  buttonDisabled : Bool
  buttonLabel : List Char
  shownModal : ModalKind
  formWasReset : Bool
deriving DecidableEq

def submitLabel : List Char := "Submit".toList

def sendFailMsg : List Char := "Failed to send message".toList

def tryLaterMsg : List Char :=
  "Failed to send message. Please try again later.".toList

/-- `submitForm` of the primary controller (lines 157-192): on a 2xx
response show the success modal and reset the form; on a non-2xx response
show the error modal with `result.message || "Failed to send message"`; on
a transport/parse error show the error modal with the generic retry
message; in every case the submit button ends re-enabled with its label
restored to `Submit`. -/
def submitForm (o : FetchOutcome) : SubmitResult :=
  match o with
  | .ok _ => ⟨false, submitLabel, .success, true⟩
  | .notOk msg =>
    ⟨false, submitLabel, .error [if msg = [] then sendFailMsg else msg], false⟩
  | .fail => ⟨false, submitLabel, .error [tryLaterMsg], false⟩

/-! ### General lemmas about `dropWhile`, trimming and tag stripping -/


theorem dropWhile_cons_false {p : Char → Bool} : ∀ {l t : List Char} {c : Char}, l.dropWhile p = c :: t → p c = false := by
  intro l
  induction l with
  | nil => intro t c h; simp [List.dropWhile] at h
  | cons a l ih =>
    intro t c h
    by_cases ha : p a
    · rw [List.dropWhile_cons, if_pos ha] at h
      exact ih h
    · rw [List.dropWhile_cons, if_neg ha] at h
      injection h with h1 _
      rw [← h1]
      exact Bool.eq_false_iff.mpr ha

theorem dropWhile_eq_self_of_false {p : Char → Bool} {c : Char} {t : List Char} (h : p c = false) : (c :: t).dropWhile p = c :: t := by
  rw [List.dropWhile_cons, if_neg (by simp [h])]

theorem dropWhile_idem (p : Char → Bool) (l : List Char) : (l.dropWhile p).dropWhile p = l.dropWhile p := by
  cases h : l.dropWhile p with
  | nil => simp
  | cons c t => exact dropWhile_eq_self_of_false (dropWhile_cons_false h)

theorem dropWhile_suffix_ex (p : Char → Bool) : ∀ l : List Char, ∃ u, u ++ l.dropWhile p = l := by
  intro l
  induction l with
  | nil => exact ⟨[], rfl⟩
  | cons a l ih =>
    by_cases ha : p a
    · obtain ⟨u, hu⟩ := ih
      exact ⟨a :: u, by rw [List.dropWhile_cons, if_pos ha, List.cons_append, hu]⟩
    · exact ⟨[], by rw [List.dropWhile_cons, if_neg ha, List.nil_append]⟩

theorem trimRight_prefix_ex (l : List Char) : ∃ v, trimRight l ++ v = l := by
  obtain ⟨u, hu⟩ := dropWhile_suffix_ex isJsSpace l.reverse
  refine ⟨u.reverse, ?_⟩
  have h2 : (u ++ l.reverse.dropWhile isJsSpace).reverse = l.reverse.reverse := by rw [hu]
  rw [List.reverse_append, List.reverse_reverse] at h2
  simpa [trimRight] using h2

theorem jsTrim_infix_ex (l : List Char) : ∃ u v, u ++ jsTrim l ++ v = l := by
  obtain ⟨v, hv⟩ := trimRight_prefix_ex l
  obtain ⟨u, hu⟩ := dropWhile_suffix_ex isJsSpace (trimRight l)
  refine ⟨u, v, ?_⟩
  have h1 : jsTrim l = (trimRight l).dropWhile isJsSpace := rfl
  rw [h1, hu, hv]

theorem trimRight_reverse_eq (l : List Char) : (trimRight l).reverse = l.reverse.dropWhile isJsSpace := by
  rw [trimRight, List.reverse_reverse]

theorem jsTrim_idem (l : List Char) : jsTrim (jsTrim l) = jsTrim l := by
  obtain ⟨u, hu⟩ := dropWhile_suffix_ex isJsSpace (trimRight l)
  have hTR : trimRight (jsTrim l) = jsTrim l := by
    cases hB : (jsTrim l).reverse with
    | nil =>
      have hnil : jsTrim l = [] := by simpa using congrArg List.reverse hB
      rw [hnil]
      rfl
    | cons c t =>
      have hc : isJsSpace c = false := by
        have hA : (trimRight l).reverse = c :: (t ++ u.reverse) := by
          rw [← hu, List.reverse_append]
          have h3 : (List.dropWhile isJsSpace (trimRight l)).reverse = (jsTrim l).reverse := rfl
          rw [h3, hB, List.cons_append]
        rw [trimRight_reverse_eq] at hA
        exact dropWhile_cons_false hA
      have h1 : (jsTrim l).reverse.dropWhile isJsSpace = (jsTrim l).reverse := by
        rw [hB]
        exact dropWhile_eq_self_of_false hc
      rw [trimRight, h1, List.reverse_reverse]
  rw [jsTrim, hTR]
  show (List.dropWhile isJsSpace (trimRight l)).dropWhile isJsSpace = jsTrim l
  rw [dropWhile_idem]
  rfl

theorem hasGt_append (x y : List Char) : hasGt (x ++ y) = (hasGt x || hasGt y) := by
  induction x with
  | nil => simp [hasGt]
  | cons c x ih => simp [hasGt, ih, Bool.or_assoc]

theorem hasTag_false_left {x y : List Char} (h : hasTag (x ++ y) = false) : hasTag x = false := by
  induction x with
  | nil => simp [hasTag]
  | cons c x ih =>
    rw [List.cons_append] at h
    simp only [hasTag, Bool.or_eq_false_iff] at h ⊢
    obtain ⟨h1, h2⟩ := h
    refine ⟨?_, ih h2⟩
    rw [Bool.and_eq_false_iff] at h1 ⊢
    cases h1 with
    | inl hc => exact Or.inl hc
    | inr hg =>
      rw [hasGt_append, Bool.or_eq_false_iff] at hg
      exact Or.inr hg.1

theorem hasTag_false_right {x y : List Char} (h : hasTag (x ++ y) = false) : hasTag y = false := by
  induction x with
  | nil => simpa using h
  | cons c x ih =>
    rw [List.cons_append] at h
    simp only [hasTag, Bool.or_eq_false_iff] at h
    exact ih h.2

theorem hasTag_false_of_hasGt_false : ∀ {l : List Char}, hasGt l = false → hasTag l = false := by
  intro l
  induction l with
  | nil => intro _; rfl
  | cons c rest ih =>
    intro h
    simp only [hasGt, Bool.or_eq_false_iff] at h
    simp only [hasTag, Bool.or_eq_false_iff]
    exact ⟨by rw [h.2, Bool.and_false], ih h.2⟩

theorem dropThroughGt_none_iff : ∀ {l : List Char}, dropThroughGt l = none ↔ hasGt l = false := by
  intro l
  induction l with
  | nil => simp [dropThroughGt, hasGt]
  | cons c rest ih =>
    by_cases hc : c = '>'
    · simp [dropThroughGt, hasGt, hc]
    · simp [dropThroughGt, hasGt, hc, ih]

theorem stripTags_nil : stripTags [] = [] := by simp [stripTags]

theorem stripTags_lt_some {rest rest2 : List Char} (h : dropThroughGt rest = some rest2) : stripTags ('<' :: rest) = stripTags rest2 := by
  simp only [stripTags]
  rw [if_pos trivial]
  split
  · rename_i r h2
    rw [h] at h2
    injection h2 with h3
    rw [h3]
  · rename_i h2
    rw [h] at h2
    exact absurd h2 (by simp)

theorem stripTags_lt_none {rest : List Char} (h : dropThroughGt rest = none) : stripTags ('<' :: rest) = '<' :: rest := by
  simp only [stripTags]
  rw [if_pos trivial]
  split
  · rename_i r h2
    rw [h] at h2
    exact absurd h2 (by simp)
  · rfl

theorem stripTags_cons_ne {c : Char} {rest : List Char} (hc : ¬ c = '<') : stripTags (c :: rest) = c :: stripTags rest := by
  simp [stripTags, hc]

/-- Key property of tag stripping: the output never contains a `<`
followed by a later `>` (so the regex has no match on the output). -/
theorem hasTag_stripTags (l : List Char) : hasTag (stripTags l) = false := by
  induction l using stripTags.induct with
  | case1 => simp [stripTags, hasTag]
  | case2 rest rest2 h ih =>
    rw [stripTags_lt_some h]
    exact ih
  | case3 rest h =>
    rw [stripTags_lt_none h]
    have hg : hasGt rest = false := dropThroughGt_none_iff.mp h
    simp only [hasTag, Bool.or_eq_false_iff]
    exact ⟨by rw [hg, Bool.and_false], hasTag_false_of_hasGt_false hg⟩
  | case4 c rest hc ih =>
    rw [stripTags_cons_ne hc]
    simp only [hasTag, Bool.or_eq_false_iff]
    refine ⟨?_, ih⟩
    rw [Bool.and_eq_false_iff]
    exact Or.inl (by simpa using hc)

/-- Tag stripping is the identity on lists on which the regex has no
match. -/
theorem stripTags_eq_self : ∀ {l : List Char}, hasTag l = false → stripTags l = l := by
  intro l
  induction l with
  | nil => intro _; simp [stripTags]
  | cons c rest ih =>
    intro h
    simp only [hasTag, Bool.or_eq_false_iff] at h
    obtain ⟨h1, h2⟩ := h
    by_cases hc : c = '<'
    · have hg : hasGt rest = false := by
        rw [Bool.and_eq_false_iff] at h1
        cases h1 with
        | inl h3 => rw [hc] at h3; simp at h3
        | inr h3 => exact h3
      have hnone : dropThroughGt rest = none := dropThroughGt_none_iff.mpr hg
      rw [hc, stripTags_lt_none hnone]
    · rw [stripTags_cons_ne hc, ih h2]

/-- Tag stripping is the identity on `<`-free lists. -/
theorem stripTags_of_no_lt : ∀ {l : List Char}, (∀ c ∈ l, c ≠ '<') → stripTags l = l := by
  intro l
  induction l with
  | nil => intro _; simp [stripTags]
  | cons c rest ih =>
    intro h
    have hc : c ≠ '<' := h c (List.mem_cons_self c rest)
    rw [stripTags_cons_ne hc, ih (fun d hd => h d (List.mem_cons_of_mem c hd))]

theorem hasTag_jsTrim_false {l : List Char} (h : hasTag l = false) : hasTag (jsTrim l) = false := by
  obtain ⟨u, v, huv⟩ := jsTrim_infix_ex l
  rw [← huv] at h
  exact hasTag_false_right (hasTag_false_left h)

theorem sanitizeInput_some_ne {l : List Char} (hl : l ≠ []) : sanitizeInput (some l) = jsTrim (stripTags l) := by
  simp [sanitizeInput, sanitizeInputEnv, hl]

/-- The `validation-helpers` sanitizer (fallback path) is idempotent. -/
theorem sanitizeInput_idem (m : Option (List Char)) : sanitizeInput (some (sanitizeInput m)) = sanitizeInput m := by
  cases m with
  | none => rfl
  | some l =>
    by_cases hl : l = []
    · rw [hl]; rfl
    · rw [sanitizeInput_some_ne hl]
      by_cases hZ : jsTrim (stripTags l) = []
      · rw [hZ]; rfl
      · rw [sanitizeInput_some_ne hZ]
        rw [stripTags_eq_self (hasTag_jsTrim_false (hasTag_stripTags l))]
        exact jsTrim_idem _

theorem mem_of_mem_jsTrim {x : Char} {l : List Char} (h : x ∈ jsTrim l) : x ∈ l := by
  obtain ⟨u, v, huv⟩ := jsTrim_infix_ex l
  rw [← huv]
  exact List.mem_append_left v (List.mem_append_right u h)

theorem mem_of_mem_replaceChar {x t : Char} {rep : List Char} : ∀ {l : List Char}, x ∈ replaceChar t rep l → x ∈ rep ∨ x ∈ l := by
  intro l
  induction l with
  | nil => intro h; simp [replaceChar] at h
  | cons c rest ih =>
    intro h
    rw [replaceChar, List.mem_append] at h
    cases h with
    | inl h1 =>
      by_cases hc : c = t
      · rw [if_pos hc] at h1
        exact Or.inl h1
      · rw [if_neg hc] at h1
        simp at h1
        exact Or.inr (by rw [h1]; exact List.mem_cons_self c rest)
    | inr h1 =>
      cases ih h1 with
      | inl h2 => exact Or.inl h2
      | inr h2 => exact Or.inr (List.mem_cons_of_mem c h2)

theorem not_mem_replaceChar_self {t : Char} {rep : List Char} (hrep : t ∉ rep) : ∀ l : List Char, t ∉ replaceChar t rep l := by
  intro l
  induction l with
  | nil => simp [replaceChar]
  | cons c rest ih =>
    rw [replaceChar]
    intro h
    rw [List.mem_append] at h
    cases h with
    | inl h1 =>
      by_cases hc : c = t
      · rw [if_pos hc] at h1; exact hrep h1
      · rw [if_neg hc] at h1; simp at h1; exact hc h1.symm
    | inr h1 => exact ih h1

theorem not_mem_replaceChar {x t : Char} {rep l : List Char} (hrep : x ∉ rep) (hl : x ∉ l) : x ∉ replaceChar t rep l := by
  intro h
  cases mem_of_mem_replaceChar h with
  | inl h1 => exact hrep h1
  | inr h1 => exact hl h1

theorem splitFirst_eq {a : Char} : ∀ {l loc dom : List Char}, splitFirst a l = some (loc, dom) → l = loc ++ a :: dom := by
  intro l
  induction l with
  | nil => intro loc dom h; simp [splitFirst] at h
  | cons c rest ih =>
    intro loc dom h
    by_cases hc : c = a
    · rw [splitFirst, if_pos hc] at h
      injection h with h1
      injection h1 with h2 h3
      rw [← h2, ← h3, hc]
      rfl
    · rw [splitFirst, if_neg hc] at h
      cases hsp : splitFirst a rest with
      | none => rw [hsp] at h; simp at h
      | some p =>
        rw [hsp] at h
        simp at h
        obtain ⟨h1, h2⟩ := h
        have h3 := ih hsp
        rw [← h1, ← h2, h3]
        rfl

theorem dot_mem_of_dotNotLast : ∀ {l : List Char}, dotNotLast l = true → '.' ∈ l := by
  intro l
  induction l with
  | nil => intro h; simp [dotNotLast] at h
  | cons c rest ih =>
    intro h
    cases rest with
    | nil => simp [dotNotLast] at h
    | cons d rest2 =>
      have h2 : (decide (c = '.') || dotNotLast (d :: rest2)) = true := h
      rw [Bool.or_eq_true] at h2
      cases h2 with
      | inl h1 =>
        have hcc : c = '.' := by simpa using h1
        rw [hcc]
        exact List.mem_cons_self _ _
      | inr h1 => exact List.mem_cons_of_mem c (ih h1)

theorem dot_mem_of_hasInnerDot {l : List Char} (h : hasInnerDot l = true) : '.' ∈ l := by
  cases l with
  | nil => simp [hasInnerDot] at h
  | cons c rest =>
    rw [hasInnerDot] at h
    exact List.mem_cons_of_mem c (dot_mem_of_dotNotLast h)

/-! ### Claim theorems -/

unseal stripTags in
/-- C1 counterexample: the input consisting of the single tag delimiter `<`
contains a tag delimiter, yet `sanitizeInput` returns it unchanged, so the
output still contains `<` (the fallback regex `/<[^>]*>/g` only removes
complete tags). -/
theorem c1_counterexample :
    '<' ∈ (['<'] : List Char) ∧ '<' ∈ sanitizeInput (some ['<']) := by
  decide

/-- C1 amended: for every input the `validation-helpers` sanitizer output
contains no complete tag (no `<` anywhere followed by a `>`), though a
stray unmatched delimiter may survive; the hand-rolled sanitizer of the
csrf controller variant does satisfy the original claim: its output never
contains `<` or `>` at all. -/
theorem c1_amended :
    (∀ m : Option (List Char), hasTag (sanitizeInput m) = false) ∧
    (∀ m : Option (List Char), '<' ∉ sanitizeInputCv m ∧ '>' ∉ sanitizeInputCv m) := by
  constructor
  · intro m
    cases m with
    | none => rfl
    | some l =>
      by_cases hl : l = []
      · rw [hl]; rfl
      · rw [sanitizeInput_some_ne hl]
        exact hasTag_jsTrim_false (hasTag_stripTags l)
  · intro m
    cases m with
    | none => simp [sanitizeInputCv]
    | some l =>
      by_cases hl : l = []
      · simp [sanitizeInputCv, hl]
      · have hunfold : sanitizeInputCv (some l) =
            jsTrim (replaceChar apostrophe ("&#x27;".toList)
              (replaceChar '"' ("&quot;".toList)
                (replaceChar '>' ("&gt;".toList)
                  (replaceChar '<' ("&lt;".toList)
                    (replaceChar '&' ("&amp;".toList)
                      (removeOnHandlers (removeAllCi 'j' ("avascript:".toList) (stripTags l)))))))) := by
          simp [sanitizeInputCv, hl]
        rw [hunfold]
        have h5lt : '<' ∉ replaceChar '<' ("&lt;".toList)
            (replaceChar '&' ("&amp;".toList)
              (removeOnHandlers (removeAllCi 'j' ("avascript:".toList) (stripTags l)))) :=
          not_mem_replaceChar_self (by decide) _
        have h6lt := @not_mem_replaceChar '<' '>' ("&gt;".toList) _ (by decide) h5lt
        have h6gt : '>' ∉ replaceChar '>' ("&gt;".toList)
            (replaceChar '<' ("&lt;".toList)
              (replaceChar '&' ("&amp;".toList)
                (removeOnHandlers (removeAllCi 'j' ("avascript:".toList) (stripTags l))))) :=
          not_mem_replaceChar_self (by decide) _
        have h7lt := @not_mem_replaceChar '<' '"' ("&quot;".toList) _ (by decide) h6lt
        have h7gt := @not_mem_replaceChar '>' '"' ("&quot;".toList) _ (by decide) h6gt
        have h8lt := @not_mem_replaceChar '<' apostrophe ("&#x27;".toList) _ (by decide) h7lt
        have h8gt := @not_mem_replaceChar '>' apostrophe ("&#x27;".toList) _ (by decide) h7gt
        exact ⟨fun hm => h8lt (mem_of_mem_jsTrim hm), fun hm => h8gt (mem_of_mem_jsTrim hm)⟩

unseal stripTags removeAllCi removeOnHandlers in
/-- C10 counterexample: the hand-rolled sanitizer of the csrf controller
variant is not idempotent: on the input `&` it yields `&amp;`, and
sanitizing again yields `&amp;amp;`. -/
theorem c10_counterexample :
    sanitizeInputCv (some (sanitizeInputCv (some ['&']))) ≠ sanitizeInputCv (some ['&']) := by
  decide

/-- C10 amended: the `validation-helpers` sanitizer used by the primary
form controller is idempotent, so its double sanitization (once in
`validateContactForm`, once inside each validation predicate) never alters
an already-sanitized value; the hand-rolled sanitizer of the csrf variant
is not idempotent (it re-encodes `&`). -/
theorem c10_amended :
    ∀ m : Option (List Char), sanitizeInput (some (sanitizeInput m)) = sanitizeInput m :=
  sanitizeInput_idem

unseal stripTags in
/-- C2 counterexample: with all four fields empty and the honeypot field
`website` carrying the non-empty value `x`, `validateContactForm` shows the
error modal with the three required-field messages instead of silently
discarding the submission — the honeypot check runs only after validation
succeeds. -/
theorem c2_counterexample :
    validateContactForm ⟨[], [], [], [], some ['x']⟩ =
      FormAction.showErrors [nameRequiredMsg, emailRequiredMsg, messageRequiredMsg] := by
  decide

/-- C2 amended: for every submission that passes field validation and whose
honeypot field carries a non-empty value, `validateContactForm` silently
discards the submission (no modal, no network call); if validation fails,
the error modal is shown regardless of the honeypot. -/
theorem c2_amended (st : ContactFormState) (w : List Char)
    (herr : contactFormErrors st = []) (hweb : st.website = some w) (hw : w ≠ []) :
    validateContactForm st = FormAction.silentDrop := by
  simp [validateContactForm, herr, hweb, hw]

unseal stripTags in
/-- C2 witness: a fully valid submission with honeypot value `spam` is
silently dropped. -/
theorem c2_witness :
    validateContactForm ⟨"John Doe".toList, "john@example.com".toList, [],
      "This is a test message".toList, some ("spam".toList)⟩ = FormAction.silentDrop :=
  c2_amended _ ("spam".toList) (by decide) rfl (by decide)

unseal stripTags in
/-- C5: submitting with all four fields empty yields the error modal with
exactly the 3 required-field messages (name, email, message; phone is
optional) and no network call (the outcome is `showErrors`, not
`submit`). -/
theorem c5_theorem :
    validateContactForm ⟨[], [], [], [], none⟩ =
      FormAction.showErrors [nameRequiredMsg, emailRequiredMsg, messageRequiredMsg] ∧
    [nameRequiredMsg, emailRequiredMsg, messageRequiredMsg].length = 3 := by
  decide

/-- The payload the primary controller builds from a form state when
validation passes: the four sanitized field values, with `phone || ""`. -/
def expectedFormData (st : ContactFormState) : FormData :=
  ⟨sanitizeInput (some st.name), sanitizeInput (some st.email),
   if sanitizeInput (some st.phone) = [] then [] else sanitizeInput (some st.phone),
   sanitizeInput (some st.message)⟩

unseal stripTags removeAllCi removeOnHandlers in
/-- C4 counterexample: the csrf controller variant, on a fully valid
submission, issues a request whose JSON body is not exactly the four
fields `name`, `email`, `phone`, `message` — it additionally carries
`csrf_token`. -/
theorem c4_counterexample :
    validateContactFormCsrf ⟨"John Doe".toList, "john@example.com".toList, [],
        "Hello there!".toList, "tok".toList⟩ =
      CsrfFormAction.submit ⟨"John Doe".toList, "john@example.com".toList, [],
        "Hello there!".toList, "tok".toList⟩ ∧
    (submitRequestCsrf ⟨"John Doe".toList, "john@example.com".toList, [],
        "Hello there!".toList, "tok".toList⟩).body.map Prod.fst ≠ formDataKeys ∧
    ("csrf_token".toList, "tok".toList) ∈
      (submitRequestCsrf ⟨"John Doe".toList, "john@example.com".toList, [],
        "Hello there!".toList, "tok".toList⟩).body := by
  refine ⟨by decide, by decide, by decide⟩

/-- C4 amended: every submission that the primary controller submits is a
single HTTP POST to the fixed endpoint with `Content-Type:
application/json` whose JSON body consists of exactly the four fields
`name`, `email`, `phone` and `message` (phone as the empty string when
absent), carrying the sanitized field values; and every state that passes
validation with a clear honeypot is submitted with exactly that payload.
The csrf controller variant additionally includes a `csrf_token` field. -/
theorem c4_amended :
    (∀ (st : ContactFormState) (fd : FormData), validateContactForm st = FormAction.submit fd →
      (submitRequest fd).method = "POST".toList ∧
      (submitRequest fd).url = API_ENDPOINT ∧
      (submitRequest fd).contentType = "application/json".toList ∧
      (submitRequest fd).body.map Prod.fst = formDataKeys ∧
      fd = expectedFormData st) ∧
    (∀ st : ContactFormState, contactFormErrors st = [] →
      (∀ w, st.website = some w → w = []) →
      validateContactForm st = FormAction.submit (expectedFormData st)) := by
  constructor
  · intro st fd h
    refine ⟨rfl, rfl, rfl, rfl, ?_⟩
    by_cases herr : contactFormErrors st = []
    · cases hweb : st.website with
      | none =>
        have heq : validateContactForm st = FormAction.submit (expectedFormData st) := by
          simp [validateContactForm, herr, hweb, expectedFormData]
        rw [heq] at h
        injection h with h1
        exact h1.symm
      | some w =>
        by_cases hw : w = []
        · have heq : validateContactForm st = FormAction.submit (expectedFormData st) := by
            simp [validateContactForm, herr, hweb, hw, expectedFormData]
          rw [heq] at h
          injection h with h1
          exact h1.symm
        · have heq : validateContactForm st = FormAction.silentDrop := by
            simp [validateContactForm, herr, hweb, hw]
          rw [heq] at h
          exact absurd h (by simp)
    · have heq : validateContactForm st = FormAction.showErrors (contactFormErrors st) := by
        simp [validateContactForm, herr]
      rw [heq] at h
      exact absurd h (by simp)
  · intro st herr hweb
    cases hw : st.website with
    | none => simp [validateContactForm, herr, hw, expectedFormData]
    | some w =>
      have hwe : w = [] := hweb w hw
      simp [validateContactForm, herr, hw, hwe, expectedFormData]

unseal stripTags in
/-- C4 witness: a concrete valid submission is submitted with the expected
four-field payload. -/
theorem c4_witness :
    validateContactForm ⟨"John Doe".toList, "john@example.com".toList, [],
        "This is a test message".toList, none⟩ =
      FormAction.submit (expectedFormData ⟨"John Doe".toList, "john@example.com".toList, [],
        "This is a test message".toList, none⟩) :=
  c4_amended.2 _ (by decide) (fun w hw => by simp at hw)

/-- C9: on every submission outcome — 2xx success, non-2xx response, or
network/transport error — `submitForm` ends with the submit control
re-enabled and its label restored to `Submit`; on a non-2xx response the
error modal shows the server-supplied message when present and the generic
fallback otherwise, and on a transport error it shows the generic retry
message. -/
theorem c9_theorem (o : FetchOutcome) :
    (submitForm o).buttonDisabled = false ∧
    (submitForm o).buttonLabel = submitLabel ∧
    (∀ msg : List Char, msg ≠ [] → o = FetchOutcome.notOk msg →
      (submitForm o).shownModal = ModalKind.error [msg]) ∧
    (o = FetchOutcome.notOk [] → (submitForm o).shownModal = ModalKind.error [sendFailMsg]) ∧
    (o = FetchOutcome.fail → (submitForm o).shownModal = ModalKind.error [tryLaterMsg]) := by
  cases o with
  | ok msg =>
    refine ⟨rfl, rfl, ?_, ?_, ?_⟩ <;> intro _ <;> simp_all
  | notOk msg =>
    refine ⟨rfl, rfl, ?_, ?_, ?_⟩
    · intro m hm he
      injection he with h1
      subst h1
      simp [submitForm, hm]
    · intro he
      injection he with h1
      rw [h1]
      simp [submitForm]
    · intro he
      exact absurd he (by simp)
  | fail =>
    refine ⟨rfl, rfl, ?_, ?_, ?_⟩
    · intro m hm he
      exact absurd he (by simp)
    · intro he
      exact absurd he (by simp)
    · intro _
      rfl

/-- C9 witness: a non-2xx response with server message `Server error`
re-enables the button and shows the error modal with that message. -/
theorem c9_witness :
    (submitForm (FetchOutcome.notOk ("Server error".toList))).buttonDisabled = false ∧
    (submitForm (FetchOutcome.notOk ("Server error".toList))).shownModal =
      ModalKind.error ["Server error".toList] :=
  ⟨(c9_theorem _).1, (c9_theorem _).2.2.1 _ (by decide) rfl⟩

theorem cleaned_eq_sanitize (doc : Bool) (l : List Char) :
    jsTrim (sanitizeInputEnv doc (some l)) = sanitizeInputEnv doc (some l) := by
  by_cases hl : l = []
  · simp [sanitizeInputEnv, hl]
    rfl
  · simp [sanitizeInputEnv, hl]
    exact jsTrim_idem _

/-- The character set the spec names for valid names: letters, space,
hyphen, apostrophe (second definition, following the spec words, to be
compared with the code's `nameChar`). -/
def specNameChar (c : Char) : Bool :=
  c.isAlpha || c = ' ' || c = '-' || c = apostrophe

unseal stripTags in
/-- C6 counterexample: the input `a`, tab, `b` is accepted by
`isValidName` although the sanitized value contains a tab, a character
outside the spec's set {letters, space, hyphen, apostrophe} (the code's
regex admits the whole `\s` whitespace class, not just the space
character). -/
theorem c6_counterexample :
    isValidName (some ('a' :: '\t' :: 'b' :: [])) = true ∧
    (sanitizeInput (some ('a' :: '\t' :: 'b' :: []))).all specNameChar = false := by
  refine ⟨by decide, by decide⟩

unseal stripTags in
/-- C6 amended: `isValidName` returns true exactly when the sanitized
input has length between 2 and 100 and every character is an ASCII letter,
a whitespace character (the regex class `\s`, not only the space
character), a hyphen or an apostrophe; null and the empty string are
invalid, `isValidName "A"` is false and `isValidName "Jean-Claude Van
Damme"` is true. -/
theorem c6_amended :
    (∀ l : List Char, isValidName (some l) = true ↔
      (2 ≤ (sanitizeInput (some l)).length ∧ (sanitizeInput (some l)).length ≤ 100 ∧
       (sanitizeInput (some l)).all nameChar = true)) ∧
    isValidName none = false ∧
    isValidName (some []) = false ∧
    isValidName (some ("A".toList)) = false ∧
    isValidName (some ("Jean-Claude Van Damme".toList)) = true := by
  refine ⟨?_, rfl, by decide, by decide, by decide⟩
  intro l
  by_cases hl : l = []
  · subst hl
    constructor
    · intro h
      exact absurd h (by decide)
    · intro h
      exact absurd h.1 (by decide)
  · have hval : isValidName (some l) =
        (if (sanitizeInput (some l)).length < 2 || (sanitizeInput (some l)).length > 100 then false
         else !(sanitizeInput (some l)).isEmpty && (sanitizeInput (some l)).all nameChar) := by
      simp only [isValidName, isValidNameEnv, if_neg hl]
      rw [cleaned_eq_sanitize]
      rfl
    rw [hval]
    by_cases hlen : (sanitizeInput (some l)).length < 2 || (sanitizeInput (some l)).length > 100
    · rw [if_pos hlen]
      simp only [Bool.or_eq_true, decide_eq_true_eq] at hlen
      constructor
      · intro h
        exact absurd h (by simp)
      · intro ⟨h1, h2, _⟩
        cases hlen with
        | inl h3 => omega
        | inr h3 => omega
    · rw [if_neg hlen]
      simp only [Bool.or_eq_true, decide_eq_true_eq, not_or, not_lt] at hlen
      obtain ⟨h1, h2⟩ := hlen
      simp only [Bool.and_eq_true, Bool.not_eq_true', List.isEmpty_eq_false]
      constructor
      · intro ⟨_, h4⟩
        refine ⟨h1, by omega, h4⟩
      · intro ⟨_, _, h5⟩
        refine ⟨?_, h5⟩
        intro hemp
        rw [hemp] at h1
        simp at h1

unseal stripTags in
/-- C6 witness: instantiating the amended characterisation at `Jo`. -/
theorem c6_witness : isValidName (some ("Jo".toList)) = true :=
  (c6_amended.1 _).mpr (by decide)

/-- The spec's email grammar (second definition, following the spec words):
a nonempty local part, `@`, and a domain containing at least one dot. -/
def specEmailGrammar (l : List Char) : Prop :=
  ∃ loc dom : List Char, l = loc ++ '@' :: dom ∧ loc ≠ [] ∧ '.' ∈ dom

unseal stripTags in
/-- C7: `isValidEmail` rejects null and empty input, accepts only strings
whose sanitized value matches the grammar local-part@domain with at least
one dot in the domain, and is case-insensitive on the given examples:
`user@example.com` and `USER@EXAMPLE.COM` are accepted, `@example.com` is
rejected. -/
theorem c7_theorem :
    isValidEmail none = false ∧
    isValidEmail (some []) = false ∧
    (∀ l : List Char, isValidEmail (some l) = true → specEmailGrammar (sanitizeInput (some l))) ∧
    isValidEmail (some ("user@example.com".toList)) = true ∧
    isValidEmail (some ("USER@EXAMPLE.COM".toList)) = true ∧
    isValidEmail (some ("@example.com".toList)) = false := by
  refine ⟨rfl, by decide, ?_, by decide, by decide, by decide⟩
  intro l h
  by_cases hl : l = []
  · subst hl
    exact absurd h (by decide)
  · have hval : isValidEmail (some l) = fallbackIsEmail (sanitizeInput (some l)) := by
      simp only [isValidEmail, isValidEmailEnv, if_neg hl]
      rw [cleaned_eq_sanitize]
      rfl
    rw [hval] at h
    cases hsp : splitFirst '@' (sanitizeInput (some l)) with
    | none =>
      simp only [fallbackIsEmail, hsp] at h
      exact absurd h (by simp)
    | some p =>
      obtain ⟨loc, dom⟩ := p
      simp only [fallbackIsEmail, hsp] at h
      simp only [Bool.and_eq_true] at h
      obtain ⟨⟨⟨hne, _⟩, _⟩, hdot⟩ := h
      refine ⟨loc, dom, splitFirst_eq hsp, ?_, dot_mem_of_hasInnerDot hdot⟩
      intro hemp
      rw [hemp] at hne
      simp at hne

unseal stripTags in
/-- C7 witness: instantiating the soundness direction at
`user@example.com`. -/
theorem c7_witness : specEmailGrammar (sanitizeInput (some ("user@example.com".toList))) :=
  c7_theorem.2.2.1 _ (by decide)

theorem dropWhile_replicate_a (n : Nat) :
    (List.replicate n 'a').dropWhile isJsSpace = List.replicate n 'a' := by
  cases n with
  | zero => rfl
  | succ k =>
    rw [List.replicate_succ]
    exact dropWhile_eq_self_of_false (by decide)

theorem jsTrim_replicate_a (n : Nat) :
    jsTrim (List.replicate n 'a') = List.replicate n 'a' := by
  rw [jsTrim, trimRight, List.reverse_replicate, dropWhile_replicate_a,
    List.reverse_replicate, trimLeft, dropWhile_replicate_a]

theorem sanitize_replicate_a (n : Nat) :
    sanitizeInput (some (List.replicate n 'a')) = List.replicate n 'a' := by
  cases n with
  | zero => rfl
  | succ k =>
    have hne : List.replicate (k + 1) 'a' ≠ [] := by simp
    rw [sanitizeInput_some_ne hne]
    rw [stripTags_of_no_lt (fun c hc he => by rw [List.eq_of_mem_replicate hc] at he; exact absurd he (by decide))]
    exact jsTrim_replicate_a _

unseal stripTags in
/-- C8: `isValidMessage` returns true exactly when the sanitized input's
length lies in the inclusive range `[5, 5000]`; null/undefined is invalid,
`1234` is rejected, `12345` accepted, 5000 `a`s accepted and 5001 `a`s
rejected. -/
theorem c8_theorem :
    (∀ m : Option (List Char), isValidMessage m = true ↔
      (5 ≤ (sanitizeInput m).length ∧ (sanitizeInput m).length ≤ 5000)) ∧
    isValidMessage none = false ∧
    isValidMessage (some ("1234".toList)) = false ∧
    isValidMessage (some ("12345".toList)) = true ∧
    isValidMessage (some (List.replicate 5000 'a')) = true ∧
    isValidMessage (some (List.replicate 5001 'a')) = false := by
  have hiff : ∀ m : Option (List Char), isValidMessage m = true ↔
      (5 ≤ (sanitizeInput m).length ∧ (sanitizeInput m).length ≤ 5000) := by
    intro m
    cases m with
    | none =>
      constructor
      · intro h
        exact absurd h (by decide)
      · intro h
        exact absurd h.1 (by decide)
    | some l =>
      by_cases hl : l = []
      · subst hl
        constructor
        · intro h
          exact absurd h (by decide)
        · intro h
          exact absurd h.1 (by decide)
      · have hval : isValidMessage (some l) = fallbackIsLength (sanitizeInput (some l)) 5 5000 := by
          simp only [isValidMessage, isValidMessageEnv, if_neg hl]
          rw [cleaned_eq_sanitize]
          rfl
        rw [hval]
        simp [fallbackIsLength]
  refine ⟨hiff, rfl, by decide, by decide, ?_, ?_⟩
  · exact (hiff _).mpr (by rw [sanitize_replicate_a, List.length_replicate]; omega)
  · apply Bool.eq_false_iff.mpr
    intro htrue
    have h2 := (hiff _).mp htrue
    rw [sanitize_replicate_a, List.length_replicate] at h2
    omega

unseal stripTags in
/-- C8 witness: instantiating the characterisation at `hello`. -/
theorem c8_witness : isValidMessage (some ("hello".toList)) = true :=
  (c8_theorem.1 _).mpr (by decide)

unseal stripTags in
/-- C3 counterexample: the DOMPurify browser fallback branches on whether a
live `document` exists; on the input `<b>hi</b>` the document branch
returns the input unchanged while the document-free branch strips the
tags, so `sanitizeInput` (and hence `isValidName`) gives different results
in the two environments. -/
theorem c3_counterexample :
    sanitizeInputEnv true (some ("<b>hi</b>".toList)) ≠
      sanitizeInputEnv false (some ("<b>hi</b>".toList)) ∧
    isValidNameEnv true (some ("<b>hi</b>".toList)) ≠
      isValidNameEnv false (some ("<b>hi</b>".toList)) := by
  refine ⟨by decide, by decide⟩

/-- C3 amended: for a fixed environment each helper is a pure function of
its string argument, and on every input containing no `<` character all
five helpers agree between the document and document-free environments;
on inputs containing `<` the results can differ (see the
counterexample). -/
theorem c3_amended (l : List Char) (h : '<' ∉ l) :
    sanitizeInputEnv true (some l) = sanitizeInputEnv false (some l) ∧
    isValidNameEnv true (some l) = isValidNameEnv false (some l) ∧
    isValidEmailEnv true (some l) = isValidEmailEnv false (some l) ∧
    isValidPhoneEnv true (some l) = isValidPhoneEnv false (some l) ∧
    isValidMessageEnv true (some l) = isValidMessageEnv false (some l) := by
  have hsan : sanitizeInputEnv true (some l) = sanitizeInputEnv false (some l) := by
    by_cases hl : l = []
    · simp [sanitizeInputEnv, hl]
    · have hstrip : stripTags l = l := stripTags_of_no_lt (fun c hc he => h (he ▸ hc))
      simp [sanitizeInputEnv, hl, hstrip]
  refine ⟨hsan, ?_, ?_, ?_, ?_⟩
  · simp only [isValidNameEnv, hsan]
  · simp only [isValidEmailEnv, hsan]
  · simp only [isValidPhoneEnv, hsan]
  · simp only [isValidMessageEnv, hsan]

/-- C3 witness: on the `<`-free input `hi` both environments agree. -/
theorem c3_witness :
    sanitizeInputEnv true (some ("hi".toList)) = sanitizeInputEnv false (some ("hi".toList)) :=
  (c3_amended ("hi".toList) (by decide)).1
